import Mathlib

/-!
Verification of the Scholar-Agent streaming client: a shallow embedding of the
task-state reconciler in `frontend/app/page.tsx` (the `handleSubmit` event
switch and its finalization callbacks) and of the SSE transport/parser
`fetchSSEChat` in `frontend/lib/api.ts`.

Modelling conventions:
* JS strings are Lean `String`; the SSE byte stream is modelled after text
  decoding, as `List Char` chunks (the `TextDecoder` is outside the model).
* JS `undefined`/missing JSON fields are `Option.none`; JS truthiness of a
  string-valued expression (`undefined` and `""` are falsy) is `jsTruthy`.
* Opaque JSON payloads (`params`, `result`, decoded `data`) are never
  interpreted by the code, so they are carried as `String`s or as an abstract
  type `J` with an abstract decoder `List Char → Option J` standing for
  `JSON.parse` (which either yields a value or throws).
* JS numbers carried by frames (`progress`, `cost`, `balance`) are only
  stored and compared, never computed with, so they are modelled as `Rat`.
* React state updates inside one callback are applied in program order; the
  single-threaded fold of frames into state is made explicit as `applyFrame`.
-/

namespace ScholarAgent

/-- JS string coercion of an optional field: `undefined` becomes `""`. -/
def jsStr (o : Option String) : String := o.getD ""

/-- JS truthiness of a string-valued expression: `undefined` and `""` are falsy. -/
def jsTruthy (o : Option String) : Bool := jsStr o != ""

/-- JS `a || b` for string-valued optionals. -/
def jsOr (a b : Option String) : Option String := if jsTruthy a then a else b

/-- Step status, from `TaskProgress.tsx`: `"pending" | "running" | "done"`. -/
inductive StepStatus
  | pending
  | running
  | done
deriving DecidableEq

/-- One step of agent work, from the `TaskStep` interface in `TaskProgress.tsx`. -/
structure TaskStep where
  id : String
  action : String
  status : StepStatus
  progress : Option Rat
  message : Option String
  tool_name : Option String
  params : Option String
  result : Option String
deriving DecidableEq

/-- Timeline entries, from the `AgentTimelineEvent` union in `TaskProgress.tsx`. -/
inductive AgentTimelineEvent
  | thought (content : String)
  | step_start (stepId : String) (toolName : Option String) (action : String)
  | step_done (stepId : String) (result : String)
deriving DecidableEq

/-- One entry of an incoming `plan` frame payload (`data.plan` in `page.tsx`). -/
structure PlanEntry where
  id : String
  action : String
  status : String
  tool_name : Option String
  params : Option String
deriving DecidableEq

/-- A decoded stream frame, one case per `event` type handled by the switch in
`handleSubmit` (`page.tsx`); `unrecognized` is the switch's default (no-op). -/
inductive Frame
  | thinking (message : Option String)
  | plan (entries : List PlanEntry) (thought : Option String)
  | step_start (step_id : String) (action : Option String) (tool_name : Option String)
      (params : Option String)
  | step_progress (step_id : String) (progress : Option Rat) (message : Option String)
  | step_complete (step_id : String) (tool_name : Option String) (params : Option String)
      (result : Option String) (thought_summary : Option String)
  | agent_continuing (message : Option String)
  | stream (content : Option String)
  | cost (cost : Rat) (balance : Rat)
  | doc_updated (doc_id : String)
  | done
  | unrecognized (t : String)
deriving DecidableEq

/-- The per-turn reconciled state: the React state pieces of `page.tsx` that the
event switch mutates, together with the local `accumulated` answer string. -/
structure TaskState where
  taskSteps : List TaskStep
  agentThought : String
  stepThoughts : List (String × String)
  showTaskSteps : Bool
  agentTimeline : List AgentTimelineEvent
  agentContinuingMessage : String
  accumulated : String
  lastCost : Option (Rat × Rat)
deriving DecidableEq

/-- JS object-spread update of a string-keyed record: an existing key keeps its
position and gets the new value, a new key is appended in insertion order. -/
def recordSet (m : List (String × String)) (k v : String) : List (String × String) :=
  if m.any (fun p => p.1 = k) then
    m.map (fun p => if p.1 = k then (k, v) else p)
  else
    m ++ [(k, v)]

/-- The `prevMap.get(s.id)` lookup of the plan handler: `new Map` built from a
list keeps the last binding for a duplicated key. -/
def lookupById (l : List TaskStep) (k : String) : Option TaskStep :=
  (l.filter (fun s => s.id = k)).getLast?

/-- The plan handler's `backendStatus` computation. -/
def backendStatusOf (s : String) : StepStatus :=
  if s = "done" then .done else if s = "running" then .running else .pending

/-- One entry of the plan handler's `(data.plan || []).map(...)`: merge with an
existing step of the same id, never downgrading a `done`, else a fresh step. -/
def mergePlanEntry (prev : List TaskStep) (e : PlanEntry) : TaskStep :=
  match lookupById prev e.id with
  | some ex =>
      { ex with
        action := if e.action = "" then ex.action else e.action,
        tool_name := jsOr e.tool_name ex.tool_name,
        params := jsOr e.params ex.params,
        status :=
          if ex.status = .done then .done
          else if backendStatusOf e.status ≠ .pending then backendStatusOf e.status
          else ex.status }
  | none =>
      { id := e.id, action := e.action, status := backendStatusOf e.status,
        progress := none, message := none, tool_name := e.tool_name,
        params := e.params, result := none }

/-- The step table update of the `step_complete` handler. -/
def completeStep (sid : String) (tool params result : Option String)
    (s : TaskStep) : TaskStep :=
  if s.id = sid then
    { s with
      status := .done, progress := some 1, tool_name := tool,
      params := params, result := result }
  else s

/-- The transition function of the reconciler: the `switch (type)` of
`handleSubmit` in `page.tsx`, one case per frame type. -/
def applyFrame (st : TaskState) (f : Frame) : TaskState :=
  match f with
  | .thinking message =>
      if jsTruthy message then
        let m := jsStr message
        { st with
          agentThought := m,
          agentTimeline :=
            match st.agentTimeline.getLast? with
            | some (.thought c) =>
                if c = m then st.agentTimeline
                else st.agentTimeline ++ [.thought m]
            | _ => st.agentTimeline ++ [.thought m] }
      else st
  | .plan entries thought =>
      { st with
        taskSteps := entries.map (mergePlanEntry st.taskSteps),
        agentThought := if jsTruthy thought then jsStr thought else st.agentThought,
        showTaskSteps := true }
  | .step_start sid action tool params =>
      { st with
        agentContinuingMessage := "",
        taskSteps := st.taskSteps.map (fun s =>
          if s.id = sid then
            { s with
              status := .running, message := some "", tool_name := tool,
              params := params }
          else s),
        agentTimeline := st.agentTimeline ++ [.step_start sid tool (jsStr action)] }
  | .step_progress sid p message =>
      { st with
        taskSteps := st.taskSteps.map (fun s =>
          if s.id = sid then { s with progress := p, message := message } else s) }
  | .step_complete sid tool params result summary =>
      { st with
        taskSteps := st.taskSteps.map (completeStep sid tool params result),
        stepThoughts :=
          if sid ≠ "" ∧ jsTruthy summary then
            recordSet st.stepThoughts sid (jsStr summary)
          else st.stepThoughts,
        agentTimeline := st.agentTimeline ++ [.step_done sid (jsStr summary)] }
  | .agent_continuing message =>
      { st with
        agentContinuingMessage :=
          if jsTruthy message then jsStr message else "正在准备下一步…" }
  | .stream content =>
      { st with
        agentContinuingMessage := "",
        accumulated := st.accumulated ++ jsStr content }
  | .cost c b => { st with lastCost := some (c, b) }
  | .doc_updated _ => st
  | .done => { st with agentContinuingMessage := "" }
  | .unrecognized _ => st

/-- The state reset performed at the top of `handleSubmit` before streaming. -/
def initTaskState : TaskState :=
  { taskSteps := [], agentThought := "", stepThoughts := [], showTaskSteps := true,
    agentTimeline := [], agentContinuingMessage := "", accumulated := "",
    lastCost := none }

/-- Fold a frame sequence into a state. -/
def reconcileFrom (st : TaskState) (fs : List Frame) : TaskState :=
  fs.foldl applyFrame st

/-- Fold a turn's frame sequence from the freshly reset state. -/
def reconcile (fs : List Frame) : TaskState := reconcileFrom initTaskState fs

/-- The answer-text contribution of one frame (`data.content || ""` for a
`stream` frame, nothing for every other type). -/
def streamText : Frame → String
  | .stream c => jsStr c
  | _ => ""

/-- Concatenation of the answer fragments of a frame sequence, in order. -/
def concatContents : List Frame → String
  | [] => ""
  | f :: fs => streamText f ++ concatContents fs

/-- Does this frame carry `step_start` for the given step id? -/
def isStepStartFor (f : Frame) (id : String) : Bool :=
  match f with
  | .step_start sid _ _ _ => sid = id
  | _ => false

/-- Does this frame keep the given step id in the table (a `plan` frame keeps
only the ids it lists; every other frame keeps all ids)? -/
def planKeeps (f : Frame) (id : String) : Bool :=
  match f with
  | .plan entries _ => entries.any (fun e => e.id = id)
  | _ => true

/-! The SSE frame parser of `fetchSSEChat` (`frontend/lib/api.ts`): the buffer
is split on the blank-line delimiter, the last (possibly incomplete) part is
kept as the new buffer, and each complete part is scanned line by line. -/

/-- JS `s.split("\n\n")`, returned as (all complete parts, last part): the
pair is exactly `(parts, parts.pop())` of the source. Matching is leftmost
and non-overlapping, as for the JS delimiter search. -/
def splitNN : List Char → List (List Char) × List Char
  | [] => ([], [])
  | [c] => ([], [c])
  | c1 :: c2 :: rest =>
    if c1 = '\n' ∧ c2 = '\n' then
      let r := splitNN rest
      ([] :: r.1, r.2)
    else
      match splitNN (c2 :: rest) with
      | ([], l) => ([], c1 :: l)
      | (b :: bs, l) => ((c1 :: b) :: bs, l)

/-- JS `part.split("\n")` (single-character delimiter, complete split). -/
def splitNL : List Char → List (List Char)
  | [] => [[]]
  | c :: rest =>
    if c = '\n' then [] :: splitNL rest
    else
      match splitNL rest with
      | [] => [[c]]
      | l :: ls => (c :: l) :: ls

/-- The incremental parser state: blocks already emitted to the event loop,
and the pending `buffer` of `fetchSSEChat`. -/
structure ParseState where
  emitted : List (List Char)
  buffer : List Char
deriving DecidableEq

/-- The parser state before the first chunk (`let buffer = ""`). -/
def initParse : ParseState := ⟨[], []⟩

/-- One iteration of the `while` loop body for a delivered chunk: append the
chunk to the buffer, split on blank lines, keep the last part pending. -/
def feedChunk (ps : ParseState) (chunk : List Char) : ParseState :=
  let r := splitNN (ps.buffer ++ chunk)
  ⟨ps.emitted ++ r.1, r.2⟩

/-- Feed a whole sequence of delivered chunks. -/
def feedChunks (ps : ParseState) (chunks : List (List Char)) : ParseState :=
  chunks.foldl feedChunk ps

/-- The prefix tested by `line.startsWith("event: ")`. -/
def eventTag : List Char := "event: ".toList

/-- The prefix tested by `line.startsWith("data: ")`. -/
def dataTag : List Char := "data: ".toList

/-- The body of the `for (const line of lines)` loop: two sequential `if`
statements, each overwriting the current `(eventType, data)` pair. -/
def stepLine (td : List Char × List Char) (line : List Char) :
    List Char × List Char :=
  let td1 := if eventTag.isPrefixOf line then (line.drop 7, td.2) else td
  if dataTag.isPrefixOf line then (td1.1, line.drop 6) else td1

/-- Scan one complete block: split into lines and run the line loop starting
from `eventType = ""` and `data = ""`. -/
def extractTypeData (block : List Char) : List Char × List Char :=
  (splitNL block).foldl stepLine ([], [])

/-- The `drop`-projection of the last line carrying a given tag prefix, with a
default; a fold in the same overwriting style as the source's line loop. -/
def lastTagged (tag : List Char) (n : Nat) (d : List Char) :
    List (List Char) → List Char
  | [] => d
  | l :: ls => lastTagged tag n (if tag.isPrefixOf l then l.drop n else d) ls

/-- The frame a complete block contributes: `none` when the block lacks a type
or data or when `JSON.parse` (the abstract decoder `dec`) throws; in the
source this is the `if (eventType && data) try ... catch` guard. -/
def blockFrame {J : Type} (dec : List Char → Option J) (block : List Char) :
    Option (List Char × J) :=
  let td := extractTypeData block
  if td.1 ≠ [] ∧ td.2 ≠ [] then (dec td.2).map (fun j => (td.1, j)) else none

/-- The frames delivered for a list of complete blocks, in order. -/
def blockFrames {J : Type} (dec : List Char → Option J)
    (blocks : List (List Char)) : List (List Char × J) :=
  blocks.filterMap (blockFrame dec)

/-- The ordered frame sequence produced by a whole chunked delivery. -/
def framesOf {J : Type} (dec : List Char → Option J)
    (chunks : List (List Char)) : List (List Char × J) :=
  blockFrames dec (feedChunks initParse chunks).emitted

/-! The transport control flow of `fetchSSEChat`: which callbacks fire, in
which order, and which errors propagate to the caller. -/

/-- Reasons an error propagates out of `fetchSSEChat`. -/
inductive ErrKind
  | http
  | network
  | abortPre
deriving DecidableEq

/-- Observable callback events of one `fetchSSEChat` run, in execution order. -/
inductive CallEvt (J : Type)
  | callOnEvent (f : List Char × J)
  | callOnDone
  | raised (e : ErrKind)
deriving DecidableEq

/-- How the reading loop of an open body stream terminates: normal
end-of-stream, an `AbortError` from cancellation, or a network failure. -/
inductive StreamEnd
  | normal
  | aborted
  | netError
deriving DecidableEq

/-- A failure of the initial `await fetch(...)` itself, before any response
exists: a network error, or an abort signalled before the response arrived.
Both make the promise reject, outside the `try`/`finally` of the source. -/
inductive PreStream
  | rejectedNet
  | rejectedAbort
deriving DecidableEq

/-- One run of `fetchSSEChat`: either the initial fetch rejects (`pre`), or a
response arrives with status `ok`, an optional body, the chunks delivered
before the loop terminates, and the way it terminates. -/
structure FetchRun where
  pre : Option PreStream
  ok : Bool
  hasBody : Bool
  chunks : List (List Char)
  ending : StreamEnd
deriving DecidableEq

/-- The callback/error trace of one `fetchSSEChat` run, transcribed from the
source: a rejected fetch propagates with no callback; a non-ok response calls
`onDone` then throws; a missing body calls `onDone` and returns; otherwise
each parsed frame fires `onEvent`, and the `finally` fires `onDone` once —
after which a network error rethrows while an `AbortError` is swallowed. -/
def fetchTrace {J : Type} (dec : List Char → Option J) (r : FetchRun) :
    List (CallEvt J) :=
  match r.pre with
  | some .rejectedNet => [.raised .network]
  | some .rejectedAbort => [.raised .abortPre]
  | none =>
    if r.ok = false then [.callOnDone, .raised .http]
    else if r.hasBody = false then [.callOnDone]
    else
      (framesOf dec r.chunks).map .callOnEvent ++
        match r.ending with
        | .normal => [.callOnDone]
        | .aborted => [.callOnDone]
        | .netError => [.callOnDone, .raised .network]

/-- Is this trace event the finalization callback? -/
def isOnDone {J : Type} : CallEvt J → Bool
  | .callOnDone => true
  | _ => false

/-- Is this trace event terminal-relevant (finalization or a thrown error)? -/
def isTerminalEvt {J : Type} : CallEvt J → Bool
  | .callOnDone => true
  | .raised _ => true
  | _ => false

/-! The per-turn finalization of `handleSubmit` (`page.tsx`): the `onDone`
callback and the `catch` branch, which build the assistant message. -/

/-- The snapshot of one step stored in message metadata (`ts.map((s) => ...)`
in the finalization callback); note the `message` field is dropped. -/
structure SnapStep where
  id : String
  action : String
  status : StepStatus
  progress : Option Rat
  tool_name : Option String
  params : Option String
  result : Option String
deriving DecidableEq

/-- Project a step to its metadata snapshot. -/
def snapOf (s : TaskStep) : SnapStep :=
  ⟨s.id, s.action, s.status, s.progress, s.tool_name, s.params, s.result⟩

/-- The `metadata` object attached to a finalized assistant message. -/
structure MsgMeta where
  task_plan : List SnapStep
  agent_thought : String
  step_thoughts : List (String × String)
  timeline : List AgentTimelineEvent
deriving DecidableEq

/-- A finalized assistant message of this turn. -/
structure AssistantMsg where
  content : String
  metadata : Option MsgMeta
deriving DecidableEq

/-- The `taskMeta` computation: metadata only when steps are shown and at
least one step exists (`ssts && ts.length > 0`). -/
def metaOf (st : TaskState) : Option MsgMeta :=
  if st.showTaskSteps ∧ st.taskSteps ≠ [] then
    some ⟨st.taskSteps.map snapOf, st.agentThought, st.stepThoughts,
      st.agentTimeline⟩
  else none

/-- The cancellation marker appended in the `AbortError` catch branch. -/
def cancelMark : String := "\n\n[已停止]"

/-- The `onDone` finalization callback: append an assistant message carrying
the accumulated answer and the task metadata, but only if the accumulated
answer is non-empty (`if (accumulated)`). -/
def finalizeOnDone (st : TaskState) (msgs : List AssistantMsg) :
    List AssistantMsg :=
  if st.accumulated ≠ "" then msgs ++ [⟨st.accumulated, metaOf st⟩] else msgs

/-- The `AbortError` branch of `handleSubmit`'s catch: same message, with the
cancellation marker appended to the content, again only if the accumulated
answer is non-empty. -/
def finalizeOnAbort (st : TaskState) (msgs : List AssistantMsg) :
    List AssistantMsg :=
  if st.accumulated ≠ "" then msgs ++ [⟨st.accumulated ++ cancelMark, metaOf st⟩]
  else msgs

/-- How one whole turn ends, seen from `handleSubmit`. -/
inductive TurnEnd
  | normalEnd
  | cancelMidStream
  | netErrorMidStream
  | cancelBeforeResponse
  | httpErrorResponse
  | netErrorBeforeResponse
deriving DecidableEq

/-- The assistant messages appended by one turn that delivered `frames` and
ended as `ending`, transcribed from `fetchSSEChat` plus `handleSubmit`: a
mid-stream abort is swallowed inside `fetchSSEChat` (its name is checked
against "AbortError"), so its `finally` fires `onDone` and `fetchSSEChat`
returns normally — `handleSubmit`'s catch never sees it; the catch's abort
branch runs only when the initial fetch itself rejected, in which case no
frame was delivered and the state is still the reset state. -/
def runTurn (frames : List Frame) (ending : TurnEnd) : List AssistantMsg :=
  match ending with
  | .normalEnd => finalizeOnDone (reconcile frames) []
  | .cancelMidStream => finalizeOnDone (reconcile frames) []
  | .netErrorMidStream => finalizeOnDone (reconcile frames) []
  | .cancelBeforeResponse => finalizeOnAbort initTaskState []
  | .httpErrorResponse => finalizeOnDone initTaskState []
  | .netErrorBeforeResponse => []

/-! Parser lemmas: incremental splitting on the blank-line delimiter is
insensitive to chunk boundaries. -/

/-- A string without a complete blank-line delimiter is kept whole as the
pending part. -/
theorem splitNN_no_block : ∀ (s : List Char), (splitNN s).1 = [] → (splitNN s).2 = s := by
  intro s
  induction s using splitNN.induct with
  | case1 => simp [splitNN]
  | case2 c => simp [splitNN]
  | case3 c1 c2 rest hd ih =>
      simp [splitNN, if_pos hd]
  | case4 c1 c2 rest hd l heq ih =>
      rw [heq] at ih
      simp only [splitNN, if_neg hd, heq]
      intro _
      simpa using ih rfl
  | case5 c1 c2 rest hd b bs l heq ih =>
      simp [splitNN, if_neg hd, heq]

/-- Splitting a concatenation: the parts of `u` stay parts, and the pending
part of `u` recombines with `v` before being split further. The greedy
leftmost delimiter search restarts cleanly at each emitted part. -/
theorem splitNN_append : ∀ (u v : List Char),
    splitNN (u ++ v) =
      ((splitNN u).1 ++ (splitNN ((splitNN u).2 ++ v)).1,
        (splitNN ((splitNN u).2 ++ v)).2) := by
  intro u
  induction u using splitNN.induct with
  | case1 => intro v; simp [splitNN]
  | case2 c => intro v; simp [splitNN]
  | case3 c1 c2 rest hd ih =>
      intro v
      have h1 : splitNN (c1 :: c2 :: (rest ++ v)) =
          ([] :: (splitNN (rest ++ v)).1, (splitNN (rest ++ v)).2) := by
        simp [splitNN, if_pos hd]
      have h2 : splitNN (c1 :: c2 :: rest) =
          ([] :: (splitNN rest).1, (splitNN rest).2) := by
        simp [splitNN, if_pos hd]
      simp only [List.cons_append, h1, h2, ih v, List.cons_append]
  | case4 c1 c2 rest hd l heq ih =>
      intro v
      have hl : l = c2 :: rest := by
        have := splitNN_no_block (c2 :: rest)
        rw [heq] at this
        simpa using this rfl
      have h2 : splitNN (c1 :: c2 :: rest) = ([], c1 :: l) := by
        simp [splitNN, if_neg hd, heq]
      rw [h2]
      subst hl
      simp
  | case5 c1 c2 rest hd b bs l heq ih =>
      intro v
      have h2 : splitNN (c1 :: c2 :: rest) = ((c1 :: b) :: bs, l) := by
        simp [splitNN, if_neg hd, heq]
      have ihv := ih v
      rw [heq] at ihv
      have h1 : splitNN (c1 :: c2 :: (rest ++ v)) =
          ((c1 :: b) :: (bs ++ (splitNN (l ++ v)).1), (splitNN (l ++ v)).2) := by
        have hcv : splitNN (c2 :: (rest ++ v)) =
            (b :: (bs ++ (splitNN (l ++ v)).1), (splitNN (l ++ v)).2) := by
          have hc : (c2 :: rest) ++ v = c2 :: (rest ++ v) := by simp
          rw [hc] at ihv
          simpa using ihv
        simp [splitNN, if_neg hd, hcv]
      simp only [List.cons_append, h1, h2]

/-- Feeding two chunks one after the other equals feeding their
concatenation. -/
theorem feedChunk_append (ps : ParseState) (a b : List Char) :
    feedChunk (feedChunk ps a) b = feedChunk ps (a ++ b) := by
  cases ps with
  | mk em buf =>
    simp only [feedChunk]
    rw [show buf ++ (a ++ b) = (buf ++ a) ++ b from (List.append_assoc buf a b).symm,
      splitNN_append (buf ++ a) b]
    simp [List.append_assoc]

/-- Feeding a chunk list equals feeding its concatenation in one go (from any
state, provided at least one chunk arrives). -/
theorem feedChunks_eq (chunks : List (List Char)) : ∀ ps : ParseState,
    feedChunks ps chunks = if chunks.isEmpty then ps else feedChunk ps chunks.flatten := by
  induction chunks with
  | nil => intro ps; simp [feedChunks]
  | cons c rest ih =>
      intro ps
      have h1 : feedChunks ps (c :: rest) = feedChunks (feedChunk ps c) rest := rfl
      rw [h1, ih]
      cases rest with
      | nil => simp [List.flatten]
      | cons d ds => simp [List.flatten, feedChunk_append]

/-- From the fresh parser state, any chunked delivery equals the one-chunk
delivery of the whole text. -/
theorem feedChunks_init_join (chunks : List (List Char)) :
    feedChunks initParse chunks = feedChunk initParse chunks.flatten := by
  rw [feedChunks_eq]
  cases chunks with
  | nil => simp [feedChunk, initParse, splitNN]
  | cons c rest => simp

/-! Reconciler lemmas and the claim theorems. -/

theorem getLast?_mem {α : Type} {l : List α} {x : α}
    (h : l.getLast? = some x) : x ∈ l := by
  have hx : x ∈ l.getLast? := Option.mem_def.mpr h
  obtain ⟨hne, hxe⟩ := List.mem_getLast?_eq_getLast hx
  rw [hxe]
  exact List.getLast_mem hne

theorem lookupById_id {l : List TaskStep} {k : String} {x : TaskStep}
    (h : lookupById l k = some x) : x.id = k := by
  unfold lookupById at h
  have hm : x ∈ l.filter (fun s => s.id = k) := getLast?_mem h
  have := (List.mem_filter.mp hm).2
  simpa using this

theorem lookupById_mem {l : List TaskStep} {k : String} {x : TaskStep}
    (h : lookupById l k = some x) : x ∈ l := by
  unfold lookupById at h
  exact (List.mem_filter.mp (getLast?_mem h)).1

theorem lookupById_ne_none {l : List TaskStep} {k : String} {s : TaskStep}
    (hs : s ∈ l) (hid : s.id = k) : lookupById l k ≠ none := by
  unfold lookupById
  intro h
  rw [List.getLast?_eq_none_iff] at h
  have : s ∈ l.filter (fun t => t.id = k) := List.mem_filter.mpr ⟨hs, by simp [hid]⟩
  rw [h] at this
  simp at this

theorem mergePlanEntry_id (prev : List TaskStep) (e : PlanEntry) :
    (mergePlanEntry prev e).id = e.id := by
  unfold mergePlanEntry
  cases h : lookupById prev e.id with
  | none => rfl
  | some ex => simpa using lookupById_id h

theorem mergePlanEntry_done (prev : List TaskStep) (e : PlanEntry)
    (hpres : ∃ s ∈ prev, s.id = e.id)
    (hdone : ∀ s ∈ prev, s.id = e.id → s.status = .done) :
    (mergePlanEntry prev e).status = .done := by
  unfold mergePlanEntry
  cases h : lookupById prev e.id with
  | none =>
      obtain ⟨s, hs, hid⟩ := hpres
      exact absurd h (lookupById_ne_none hs hid)
  | some ex =>
      have := hdone ex (lookupById_mem h) (lookupById_id h)
      simp [this]

theorem taskSteps_applyFrame (st : TaskState) (f : Frame) :
    (applyFrame st f).taskSteps =
      match f with
      | .plan es _ => es.map (mergePlanEntry st.taskSteps)
      | .step_start sid _ tool params => st.taskSteps.map (fun s =>
          if s.id = sid then
            { s with
              status := .running, message := some "", tool_name := tool,
              params := params }
          else s)
      | .step_progress sid p m => st.taskSteps.map (fun s =>
          if s.id = sid then { s with progress := p, message := m } else s)
      | .step_complete sid tool params result _ =>
          st.taskSteps.map (completeStep sid tool params result)
      | _ => st.taskSteps := by
  cases f <;> simp [applyFrame]
  split <;> rfl

theorem recordSet_idem (m : List (String × String)) (k v : String) :
    recordSet (recordSet m k v) k v = recordSet m k v := by
  unfold recordSet
  by_cases h : m.any (fun p => p.1 = k)
  · rw [if_pos h]
    have hco : ((fun p : String × String => decide (p.1 = k)) ∘
        fun p => if p.1 = k then (k, v) else p) = fun p => decide (p.1 = k) := by
      funext p
      by_cases hp : p.1 = k <;> simp [hp]
    have hany : (m.map (fun p => if p.1 = k then (k, v) else p)).any
        (fun p => p.1 = k) = true := by
      rw [List.any_map, hco]
      exact h
    rw [if_pos hany, List.map_map]
    apply List.map_congr_left
    intro p _
    by_cases hp : p.1 = k <;> simp [hp]
  · rw [if_neg h]
    have hany : ((m ++ [(k, v)]).any (fun p => p.1 = k)) = true := by simp
    rw [if_pos hany, List.map_append]
    have h1 : m.map (fun p => if p.1 = k then (k, v) else p) = m := by
      have hm : ∀ p ∈ m, ¬(p.1 = k) := by
        intro p hp hpk
        exact h (List.any_eq_true.mpr ⟨p, hp, by simp [hpk]⟩)
      calc m.map (fun p => if p.1 = k then (k, v) else p) = m.map id := by
            apply List.map_congr_left
            intro p hp
            simp [hm p hp]
        _ = m := List.map_id m
    rw [h1]
    simp

theorem completeStep_idem (sid : String) (tool params result : Option String)
    (s : TaskStep) :
    completeStep sid tool params result (completeStep sid tool params result s) =
      completeStep sid tool params result s := by
  unfold completeStep
  by_cases h : s.id = sid <;> simp [h]

theorem map_steps_id (l : List TaskStep) (f : TaskStep → TaskStep)
    (h : ∀ s ∈ l, f s = s) : l.map f = l := by
  calc l.map f = l.map id := List.map_congr_left h
    _ = l := List.map_id l

theorem applyFrame_accumulated (st : TaskState) (f : Frame) :
    (applyFrame st f).accumulated = st.accumulated ++ streamText f := by
  cases f <;> simp [applyFrame, streamText]
  split <;> simp

theorem reconcileFrom_accumulated (st : TaskState) (fs : List Frame) :
    (reconcileFrom st fs).accumulated = st.accumulated ++ concatContents fs := by
  induction fs generalizing st with
  | nil => simp [reconcileFrom, concatContents]
  | cons f fs ih =>
      have h1 : reconcileFrom st (f :: fs) = reconcileFrom (applyFrame st f) fs := rfl
      rw [h1, ih, applyFrame_accumulated, concatContents, String.append_assoc]

theorem doneSticky_frame (st : TaskState) (id : String) (f : Frame)
    (hpres : ∃ s ∈ st.taskSteps, s.id = id)
    (hdone : ∀ s ∈ st.taskSteps, s.id = id → s.status = .done)
    (hstart : isStepStartFor f id = false)
    (hkeep : planKeeps f id = true) :
    (∃ s ∈ (applyFrame st f).taskSteps, s.id = id) ∧
    (∀ s ∈ (applyFrame st f).taskSteps, s.id = id → s.status = .done) := by
  rw [taskSteps_applyFrame] at *
  cases f with
  | plan entries thought =>
      have hkeep2 : ∃ e ∈ entries, e.id = id := by
        simpa [planKeeps] using hkeep
      obtain ⟨e0, he0, hide0⟩ := hkeep2
      constructor
      · exact ⟨mergePlanEntry st.taskSteps e0,
          List.mem_map_of_mem _ he0, by rw [mergePlanEntry_id, hide0]⟩
      · intro t ht hid
        obtain ⟨e, he, rfl⟩ := List.mem_map.mp ht
        have heid : e.id = id := by rw [← mergePlanEntry_id st.taskSteps e, hid]
        apply mergePlanEntry_done
        · obtain ⟨s0, hs0, hid0⟩ := hpres
          exact ⟨s0, hs0, by rw [hid0, heid]⟩
        · intro s hs hsid
          exact hdone s hs (by rw [hsid, heid])
  | step_start sid a tool params =>
      have hne : sid ≠ id := by simpa [isStepStartFor] using hstart
      obtain ⟨s0, hs0, hid0⟩ := hpres
      constructor
      · refine ⟨s0, ?_, hid0⟩
        have hcond : ¬(s0.id = sid) := by rw [hid0]; exact fun h => hne h.symm
        have := List.mem_map_of_mem (fun s =>
          if s.id = sid then
            { s with
              status := StepStatus.running, message := some "", tool_name := tool,
              params := params }
          else s) hs0
        simpa [hcond] using this
      · intro t ht hid
        obtain ⟨s, hs, hst⟩ := List.mem_map.mp ht
        by_cases hcond : s.id = sid
        · rw [if_pos hcond] at hst
          rw [← hst] at hid
          simp at hid
          rw [hid] at hcond
          exact absurd hcond.symm (by simpa using hne)
        · rw [if_neg hcond] at hst
          rw [← hst]
          exact hdone s hs (by rw [hst, hid])
  | step_progress sid p m =>
      obtain ⟨s0, hs0, hid0⟩ := hpres
      constructor
      · by_cases hcond : s0.id = sid
        · refine ⟨{ s0 with progress := p, message := m }, ?_, hid0⟩
          have := List.mem_map_of_mem (fun s =>
            if s.id = sid then { s with progress := p, message := m } else s) hs0
          simpa [hcond] using this
        · refine ⟨s0, ?_, hid0⟩
          have := List.mem_map_of_mem (fun s =>
            if s.id = sid then { s with progress := p, message := m } else s) hs0
          simpa [hcond] using this
      · intro t ht hid
        obtain ⟨s, hs, hst⟩ := List.mem_map.mp ht
        by_cases hcond : s.id = sid
        · rw [if_pos hcond] at hst
          have hsid : s.id = id := by rw [← hst] at hid; simpa using hid
          have := hdone s hs hsid
          rw [← hst]
          simpa using this
        · rw [if_neg hcond] at hst
          rw [← hst]
          exact hdone s hs (by rw [hst, hid])
  | step_complete sid tool params result summary =>
      obtain ⟨s0, hs0, hid0⟩ := hpres
      constructor
      · refine ⟨completeStep sid tool params result s0,
          List.mem_map_of_mem _ hs0, ?_⟩
        unfold completeStep
        by_cases hcond : s0.id = sid
        · rw [if_pos hcond]
          simpa using hid0
        · rw [if_neg hcond]
          exact hid0
      · intro t ht hid
        obtain ⟨s, hs, hst⟩ := List.mem_map.mp ht
        rw [← hst]
        unfold completeStep
        by_cases hcond : s.id = sid
        · simp [hcond]
        · rw [if_neg hcond]
          apply hdone s hs
          rw [← hst] at hid
          unfold completeStep at hid
          rw [if_neg hcond] at hid
          exact hid
  | thinking m => exact ⟨hpres, hdone⟩
  | agent_continuing m => exact ⟨hpres, hdone⟩
  | stream c => exact ⟨hpres, hdone⟩
  | cost c b => exact ⟨hpres, hdone⟩
  | doc_updated d => exact ⟨hpres, hdone⟩
  | done => exact ⟨hpres, hdone⟩
  | unrecognized t => exact ⟨hpres, hdone⟩

theorem onEvents_countP {J : Type} (fs : List (List Char × J)) :
    (fs.map CallEvt.callOnEvent).countP isOnDone = 0 := by
  induction fs with
  | nil => rfl
  | cons f fs ih => simp [List.countP_cons, isOnDone, ih]

theorem onEvents_filter {J : Type} (fs : List (List Char × J)) :
    (fs.map CallEvt.callOnEvent).filter isTerminalEvt = [] := by
  rw [List.filter_eq_nil_iff]
  intro a ha
  obtain ⟨f, _, rfl⟩ := List.mem_map.mp ha
  simp [isTerminalEvt]

theorem foldl_stepLine (lines : List (List Char)) : ∀ a b : List Char,
    lines.foldl stepLine (a, b) =
      (lastTagged eventTag 7 a lines, lastTagged dataTag 6 b lines) := by
  induction lines with
  | nil => intro a b; rfl
  | cons l ls ih =>
      intro a b
      have h1 : stepLine (a, b) l =
          (if eventTag.isPrefixOf l then l.drop 7 else a,
           if dataTag.isPrefixOf l then l.drop 6 else b) := by
        unfold stepLine
        by_cases he : eventTag.isPrefixOf l <;> by_cases hd2 : dataTag.isPrefixOf l <;>
          simp [he, hd2]
      show List.foldl stepLine (stepLine (a, b) l) ls = _
      rw [h1, ih]
      rfl

theorem lastTagged_getLast (tag : List Char) (n : Nat) :
    ∀ (ls : List (List Char)) (d : List Char),
      lastTagged tag n d ls =
        ((ls.filter (fun l => tag.isPrefixOf l)).getLast?).elim d (fun l => l.drop n) := by
  intro ls
  induction ls with
  | nil => intro d; rfl
  | cons l ls ih =>
      intro d
      by_cases hp : tag.isPrefixOf l
      · show lastTagged tag n (if tag.isPrefixOf l then l.drop n else d) ls = _
        rw [if_pos hp, ih]
        have hf : (l :: ls).filter (fun x => tag.isPrefixOf x) =
            l :: ls.filter (fun x => tag.isPrefixOf x) := by
          simp [List.filter_cons, hp]
        rw [hf]
        cases hfl : ls.filter (fun x => tag.isPrefixOf x) with
        | nil => rfl
        | cons x xs =>
            have hne : (x :: xs).getLast? ≠ none := by
              simp [List.getLast?_eq_none_iff]
            obtain ⟨y, hy⟩ := Option.ne_none_iff_exists.mp hne
            rw [List.getLast?_cons_cons, ← hy]
            rfl
      · show lastTagged tag n (if tag.isPrefixOf l then l.drop n else d) ls = _
        rw [if_neg hp, ih]
        have hf : (l :: ls).filter (fun x => tag.isPrefixOf x) =
            ls.filter (fun x => tag.isPrefixOf x) := by
          simp [List.filter_cons, hp]
        rw [hf]

theorem blockFrames_skip {J : Type} (dec : List Char → Option J)
    (bs1 bs2 : List (List Char)) (b : List Char) (hb : blockFrame dec b = none) :
    blockFrames dec (bs1 ++ b :: bs2) = blockFrames dec (bs1 ++ bs2) := by
  unfold blockFrames
  rw [List.filterMap_append, List.filterMap_append, List.filterMap_cons, hb]

/-- C1 (amended): once a step with a given id is present with status `done`,
any later frame sequence keeps every entry for that id present and `done`,
provided no `step_start` frame for that id occurs (the code unconditionally
resets the step to `running` on `step_start`) and every `plan` frame among
them still lists the id (a plan omitting the id removes the step). -/
theorem C1_theorem (st : TaskState) (id : String) (fs : List Frame)
    (hpres : ∃ s ∈ st.taskSteps, s.id = id)
    (hdone : ∀ s ∈ st.taskSteps, s.id = id → s.status = .done)
    (hstart : ∀ f ∈ fs, isStepStartFor f id = false)
    (hkeep : ∀ f ∈ fs, planKeeps f id = true) :
    (∃ s ∈ (reconcileFrom st fs).taskSteps, s.id = id) ∧
    (∀ s ∈ (reconcileFrom st fs).taskSteps, s.id = id → s.status = .done) := by
  induction fs generalizing st with
  | nil => exact ⟨hpres, hdone⟩
  | cons f gs ih =>
      have h1 := doneSticky_frame st id f hpres hdone
        (hstart f (List.mem_cons_self f gs)) (hkeep f (List.mem_cons_self f gs))
      exact ih (applyFrame st f) h1.1 h1.2
        (fun g hg => hstart g (List.mem_cons_of_mem f hg))
        (fun g hg => hkeep g (List.mem_cons_of_mem f hg))

/-- C1 counterexample: after `plan` and `step_complete` the step is `done`,
yet a later `step_start` frame for the same id reverts it to `running`, so a
done status is not sticky against `step_start`. -/
theorem C1_counterexample :
    (reconcile [Frame.plan [⟨"s1", "search", "pending", none, none⟩] none,
        Frame.step_complete "s1" none none none none]).taskSteps.map
      TaskStep.status = [StepStatus.done] ∧
    (reconcile [Frame.plan [⟨"s1", "search", "pending", none, none⟩] none,
        Frame.step_complete "s1" none none none none,
        Frame.step_start "s1" none none none]).taskSteps.map
      TaskStep.status = [StepStatus.running] := by
  decide

/-- C1 witness: a concrete done step survives a `step_progress`, a re-plan
listing the id, and a duplicate `step_complete`. -/
theorem C1_witness :
    (∃ s ∈ (reconcileFrom
        { initTaskState with
          taskSteps := [⟨"s1", "a", .done, some 1, none, none, none, none⟩] }
        [Frame.step_progress "s1" (some (mkRat 1 2)) none,
         Frame.plan [⟨"s1", "a2", "running", none, none⟩] none,
         Frame.step_complete "s1" none none none none]).taskSteps, s.id = "s1") ∧
    (∀ s ∈ (reconcileFrom
        { initTaskState with
          taskSteps := [⟨"s1", "a", .done, some 1, none, none, none, none⟩] }
        [Frame.step_progress "s1" (some (mkRat 1 2)) none,
         Frame.plan [⟨"s1", "a2", "running", none, none⟩] none,
         Frame.step_complete "s1" none none none none]).taskSteps,
      s.id = "s1" → s.status = .done) :=
  C1_theorem
    { initTaskState with
      taskSteps := [⟨"s1", "a", .done, some 1, none, none, none, none⟩] }
    "s1"
    [Frame.step_progress "s1" (some (mkRat 1 2)) none,
     Frame.plan [⟨"s1", "a2", "running", none, none⟩] none,
     Frame.step_complete "s1" none none none none]
    (by decide) (by decide) (by decide) (by decide)

/-- C2 (amended): a frame referencing an unknown step id never synthesizes a
Step — the table is left unchanged by all three step frames. A `step_complete`
is still recorded as a timeline `step_done` marker, and in the step-thought
map when a non-empty id and truthy summary are present; a `step_progress`
leaves the whole state unchanged; a `step_start` changes exactly the timeline
(appending its `step_start` marker) and clears the transient
continuing-message banner. -/
theorem C2_theorem (st : TaskState) (sid : String)
    (tool params result summary : Option String)
    (hunk : ∀ s ∈ st.taskSteps, s.id ≠ sid) :
    (applyFrame st (.step_complete sid tool params result summary)).taskSteps =
      st.taskSteps ∧
    (applyFrame st (.step_complete sid tool params result summary)).agentTimeline =
      st.agentTimeline ++ [AgentTimelineEvent.step_done sid (jsStr summary)] ∧
    (sid ≠ "" ∧ jsTruthy summary →
      (applyFrame st (.step_complete sid tool params result summary)).stepThoughts =
        recordSet st.stepThoughts sid (jsStr summary)) ∧
    (∀ (p : Option Rat) (m : Option String),
      applyFrame st (.step_progress sid p m) = st) ∧
    (∀ (act tname pval : Option String),
      applyFrame st (.step_start sid act tname pval) =
        { st with
          agentContinuingMessage := "",
          agentTimeline := st.agentTimeline ++
            [AgentTimelineEvent.step_start sid tname (jsStr act)] }) := by
  refine ⟨?_, ?_, ?_, ?_, ?_⟩
  · simp only [taskSteps_applyFrame]
    apply map_steps_id
    intro s hs
    unfold completeStep
    rw [if_neg (hunk s hs)]
  · simp [applyFrame]
  · intro h
    simp only [applyFrame]
    rw [if_pos h]
  · intro p m
    have h1 : st.taskSteps.map (fun s =>
        if s.id = sid then { s with progress := p, message := m } else s) =
          st.taskSteps := by
      apply map_steps_id
      intro s hs
      rw [if_neg (hunk s hs)]
    simp only [applyFrame]
    rw [h1]
  · intro act tname pval
    have h1 : st.taskSteps.map (fun s =>
        if s.id = sid then
          { s with
            status := .running, message := some "", tool_name := tname,
            params := pval }
        else s) = st.taskSteps := by
      apply map_steps_id
      intro s hs
      rw [if_neg (hunk s hs)]
    simp only [applyFrame]
    rw [h1]

/-- C2 counterexample: a `step_complete` for an id never seen leaves the Step
table empty — no minimal `done` Step is synthesized — while the timeline and
step-thought map still record the completion. -/
theorem C2_counterexample :
    (reconcile [Frame.step_complete "s1" none none none (some "sum")]).taskSteps
      = [] ∧
    (reconcile [Frame.step_complete "s1" none none none (some "sum")]).agentTimeline
      = [AgentTimelineEvent.step_done "s1" "sum"] ∧
    (reconcile [Frame.step_complete "s1" none none none (some "sum")]).stepThoughts
      = [("s1", "sum")] := by
  decide

/-- C2 witness: with one unrelated step in the table, a `step_complete` for an
unknown id leaves the table unchanged and appends the timeline marker, a
`step_progress` for it is a no-op, and a `step_start` for it changes only the
timeline and the continuing-message banner. -/
theorem C2_witness :
    ((applyFrame
        { initTaskState with
          taskSteps := [⟨"other", "o", .running, none, none, none, none, none⟩] }
        (.step_complete "s1" none none none (some "sum"))).taskSteps =
      [⟨"other", "o", .running, none, none, none, none, none⟩]) ∧
    ((applyFrame
        { initTaskState with
          taskSteps := [⟨"other", "o", .running, none, none, none, none, none⟩] }
        (.step_complete "s1" none none none (some "sum"))).agentTimeline =
      [] ++ [AgentTimelineEvent.step_done "s1" (jsStr (some "sum"))]) ∧
    ("s1" ≠ "" ∧ jsTruthy (some "sum") →
      (applyFrame
        { initTaskState with
          taskSteps := [⟨"other", "o", .running, none, none, none, none, none⟩] }
        (.step_complete "s1" none none none (some "sum"))).stepThoughts =
      recordSet [] "s1" (jsStr (some "sum"))) ∧
    (∀ (p : Option Rat) (m : Option String),
      applyFrame
        { initTaskState with
          taskSteps := [⟨"other", "o", .running, none, none, none, none, none⟩] }
        (.step_progress "s1" p m) =
      { initTaskState with
        taskSteps := [⟨"other", "o", .running, none, none, none, none, none⟩] }) ∧
    (∀ (act tname pval : Option String),
      applyFrame
        { initTaskState with
          taskSteps := [⟨"other", "o", .running, none, none, none, none, none⟩] }
        (.step_start "s1" act tname pval) =
      { ({ initTaskState with
          taskSteps := [⟨"other", "o", .running, none, none, none, none, none⟩]
            : TaskState }) with
        agentContinuingMessage := "",
        agentTimeline := [] ++
          [AgentTimelineEvent.step_start "s1" tname (jsStr act)] }) :=
  C2_theorem
    { initTaskState with
      taskSteps := [⟨"other", "o", .running, none, none, none, none, none⟩] }
    "s1" none none none (some "sum") (by decide)

/-- C3 (amended): applying the same `step_complete` frame twice yields the
same step table and the same step-thought map as applying it once, but the
timeline is not idempotent: each application appends one more `step_done`
marker. -/
theorem C3_theorem (st : TaskState) (sid : String)
    (tool params result summary : Option String) :
    ((applyFrame (applyFrame st (.step_complete sid tool params result summary))
        (.step_complete sid tool params result summary)).taskSteps =
      (applyFrame st (.step_complete sid tool params result summary)).taskSteps) ∧
    ((applyFrame (applyFrame st (.step_complete sid tool params result summary))
        (.step_complete sid tool params result summary)).stepThoughts =
      (applyFrame st (.step_complete sid tool params result summary)).stepThoughts) ∧
    ((applyFrame (applyFrame st (.step_complete sid tool params result summary))
        (.step_complete sid tool params result summary)).agentTimeline =
      (applyFrame st (.step_complete sid tool params result summary)).agentTimeline
        ++ [AgentTimelineEvent.step_done sid (jsStr summary)]) := by
  refine ⟨?_, ?_, ?_⟩
  · simp only [taskSteps_applyFrame]
    rw [List.map_map]
    apply List.map_congr_left
    intro s _
    exact completeStep_idem sid tool params result s
  · simp only [applyFrame]
    by_cases h : sid ≠ "" ∧ jsTruthy summary
    · rw [if_pos h, if_pos h, recordSet_idem]
    · rw [if_neg h, if_neg h]
  · simp only [applyFrame]

/-- C3 counterexample: applying a `step_complete` frame twice does not leave
the state unchanged after the first application — the timeline receives a
second `step_done` marker. -/
theorem C3_counterexample :
    applyFrame (applyFrame initTaskState
        (.step_complete "s1" none none none (some "ok")))
      (.step_complete "s1" none none none (some "ok")) ≠
    applyFrame initTaskState (.step_complete "s1" none none none (some "ok")) := by
  decide

/-- C4 (amended): a `step_progress` frame updates the referenced step's
progress fraction and message unconditionally — also when the step is already
`done` — while statuses are left untouched. -/
theorem C4_theorem (st : TaskState) (sid : String) (p : Option Rat)
    (m : Option String) (s : TaskStep) (hs : s ∈ st.taskSteps)
    (hid : s.id = sid) (hdone : s.status = .done) :
    ({ s with progress := p, message := m } : TaskStep) ∈
      (applyFrame st (.step_progress sid p m)).taskSteps ∧
    (applyFrame st (.step_progress sid p m)).taskSteps.map TaskStep.status =
      st.taskSteps.map TaskStep.status := by
  constructor
  · simp only [taskSteps_applyFrame]
    have h1 := List.mem_map_of_mem (fun s =>
      if s.id = sid then
        ({ s with progress := p, message := m } : TaskStep)
      else s) hs
    simpa [hid] using h1
  · simp only [taskSteps_applyFrame]
    rw [List.map_map]
    apply List.map_congr_left
    intro x _
    by_cases h : x.id = sid <;> simp [h]

/-- C4 counterexample: a step that is `done` with progress 1 gets its progress
overwritten to 0.4 and its message replaced by a late `step_progress` frame —
the frame is not ignored. -/
theorem C4_counterexample :
    (applyFrame
        (reconcile [Frame.plan [⟨"s1", "search", "pending", none, none⟩] none,
          Frame.step_complete "s1" none none none none])
        (.step_progress "s1" (some (mkRat 2 5)) (some "late"))).taskSteps.map
      (fun s => (s.status, s.progress)) = [(StepStatus.done, some (mkRat 2 5))] ∧
    (reconcile [Frame.plan [⟨"s1", "search", "pending", none, none⟩] none,
        Frame.step_complete "s1" none none none none]).taskSteps.map
      (fun s => (s.status, s.progress)) = [(StepStatus.done, some 1)] := by
  decide

/-- C4 witness: the amended statement at a concrete one-step `done` table. -/
theorem C4_witness :
    (({ (⟨"s1", "a", .done, some 1, none, none, none, none⟩ : TaskStep) with
        progress := some (mkRat 2 5), message := some "late" } : TaskStep) ∈
      (applyFrame
        { initTaskState with
          taskSteps := [⟨"s1", "a", .done, some 1, none, none, none, none⟩] }
        (.step_progress "s1" (some (mkRat 2 5)) (some "late"))).taskSteps) ∧
    (applyFrame
        { initTaskState with
          taskSteps := [⟨"s1", "a", .done, some 1, none, none, none, none⟩] }
        (.step_progress "s1" (some (mkRat 2 5)) (some "late"))).taskSteps.map
      TaskStep.status =
      ({ initTaskState with
        taskSteps := [⟨"s1", "a", .done, some 1, none, none, none, none⟩]
          : TaskState }).taskSteps.map TaskStep.status :=
  C4_theorem
    { initTaskState with
      taskSteps := [⟨"s1", "a", .done, some 1, none, none, none, none⟩] }
    "s1" (some (mkRat 2 5)) (some "late")
    ⟨"s1", "a", .done, some 1, none, none, none, none⟩
    (by decide) (by decide) (by decide)

/-- C5 (amended): cancelling mid-stream takes exactly the normal finalization
path: the accumulated Answer and the in-progress TaskState are preserved
as-is in the finalized message, but no cancellation marker is appended (the
mid-stream `AbortError` is swallowed inside the transport, so the marker
branch never runs for it), and a message exists only when the accumulated
Answer is non-empty. -/
theorem C5_theorem (frames : List Frame)
    (h : (reconcile frames).accumulated ≠ "") :
    runTurn frames .cancelMidStream = runTurn frames .normalEnd ∧
    runTurn frames .cancelMidStream =
      [⟨(reconcile frames).accumulated, metaOf (reconcile frames)⟩] := by
  refine ⟨rfl, ?_⟩
  simp [runTurn, finalizeOnDone, h]

/-- C5 counterexample: in the spec's own scenario (plan, step_start,
step_progress 0.4, cancel before step_complete) no Answer text accumulated,
so no assistant message is finalized at all; and adding an accumulated
fragment "Hello" yields a message whose content is exactly "Hello" — it does
not end with the cancellation marker — although the step is preserved
`running` at progress 0.4. -/
theorem C5_counterexample :
    runTurn [Frame.plan [⟨"s1", "search", "pending", none, none⟩] none,
        Frame.step_start "s1" (some "search") (some "SearchTool") none,
        Frame.step_progress "s1" (some (mkRat 2 5)) (some "40%")]
      .cancelMidStream = [] ∧
    (runTurn [Frame.plan [⟨"s1", "search", "pending", none, none⟩] none,
        Frame.step_start "s1" (some "search") (some "SearchTool") none,
        Frame.step_progress "s1" (some (mkRat 2 5)) (some "40%"),
        Frame.stream (some "Hello")]
      .cancelMidStream).map AssistantMsg.content = ["Hello"] ∧
    (cancelMark.toList.isSuffixOf "Hello".toList) = false ∧
    (runTurn [Frame.plan [⟨"s1", "search", "pending", none, none⟩] none,
        Frame.step_start "s1" (some "search") (some "SearchTool") none,
        Frame.step_progress "s1" (some (mkRat 2 5)) (some "40%"),
        Frame.stream (some "Hello")]
      .cancelMidStream).map (fun msg => msg.metadata.map (fun md =>
        md.task_plan.map (fun s => (s.status, s.progress)))) =
      [some [(StepStatus.running, some (mkRat 2 5))]] := by
  decide

/-- C5 witness: the amended statement at the spec scenario extended with an
accumulated "Hello" fragment. -/
theorem C5_witness :
    runTurn [Frame.plan [⟨"s1", "search", "pending", none, none⟩] none,
        Frame.step_start "s1" (some "search") (some "SearchTool") none,
        Frame.step_progress "s1" (some (mkRat 2 5)) (some "40%"),
        Frame.stream (some "Hello")] .cancelMidStream =
      runTurn [Frame.plan [⟨"s1", "search", "pending", none, none⟩] none,
        Frame.step_start "s1" (some "search") (some "SearchTool") none,
        Frame.step_progress "s1" (some (mkRat 2 5)) (some "40%"),
        Frame.stream (some "Hello")] .normalEnd ∧
    runTurn [Frame.plan [⟨"s1", "search", "pending", none, none⟩] none,
        Frame.step_start "s1" (some "search") (some "SearchTool") none,
        Frame.step_progress "s1" (some (mkRat 2 5)) (some "40%"),
        Frame.stream (some "Hello")] .cancelMidStream =
      [⟨(reconcile [Frame.plan [⟨"s1", "search", "pending", none, none⟩] none,
          Frame.step_start "s1" (some "search") (some "SearchTool") none,
          Frame.step_progress "s1" (some (mkRat 2 5)) (some "40%"),
          Frame.stream (some "Hello")]).accumulated,
        metaOf (reconcile [Frame.plan [⟨"s1", "search", "pending", none, none⟩] none,
          Frame.step_start "s1" (some "search") (some "SearchTool") none,
          Frame.step_progress "s1" (some (mkRat 2 5)) (some "40%"),
          Frame.stream (some "Hello")])⟩] :=
  C5_theorem
    [Frame.plan [⟨"s1", "search", "pending", none, none⟩] none,
     Frame.step_start "s1" (some "search") (some "SearchTool") none,
     Frame.step_progress "s1" (some (mkRat 2 5)) (some "40%"),
     Frame.stream (some "Hello")]
    (by decide)

/-- C6 (amended): whenever the initial fetch obtains a response (of any
status, with or without a body, however the stream then ends), `onDone` fires
exactly once, and any thrown error is raised only after it: the terminal
events of the trace are exactly `[onDone]` or `[onDone, raised e]`. When the
initial fetch itself rejects, no `onDone` fires at all. -/
theorem C6_theorem {J : Type} (dec : List Char → Option J) (r : FetchRun)
    (h : r.pre = none) :
    (fetchTrace dec r).countP isOnDone = 1 ∧
    ((fetchTrace dec r).filter isTerminalEvt = [CallEvt.callOnDone] ∨
      ∃ e, (fetchTrace dec r).filter isTerminalEvt =
        [CallEvt.callOnDone, CallEvt.raised e]) := by
  rcases r with ⟨pre, ok, hasBody, chunks, ending⟩
  obtain rfl : pre = none := h
  cases ok with
  | false => exact ⟨rfl, Or.inr ⟨ErrKind.http, rfl⟩⟩
  | true =>
    cases hasBody with
    | false => exact ⟨rfl, Or.inl rfl⟩
    | true =>
      cases ending with
      | normal =>
          have ht : fetchTrace dec ⟨none, true, true, chunks, StreamEnd.normal⟩ =
              (framesOf dec chunks).map CallEvt.callOnEvent ++
                [CallEvt.callOnDone] := rfl
          rw [ht]
          constructor
          · rw [List.countP_append, onEvents_countP]
            rfl
          · left
            rw [List.filter_append, onEvents_filter]
            rfl
      | aborted =>
          have ht : fetchTrace dec ⟨none, true, true, chunks, StreamEnd.aborted⟩ =
              (framesOf dec chunks).map CallEvt.callOnEvent ++
                [CallEvt.callOnDone] := rfl
          rw [ht]
          constructor
          · rw [List.countP_append, onEvents_countP]
            rfl
          · left
            rw [List.filter_append, onEvents_filter]
            rfl
      | netError =>
          have ht : fetchTrace dec ⟨none, true, true, chunks, StreamEnd.netError⟩ =
              (framesOf dec chunks).map CallEvt.callOnEvent ++
                [CallEvt.callOnDone, CallEvt.raised ErrKind.network] := rfl
          rw [ht]
          constructor
          · rw [List.countP_append, onEvents_countP]
            rfl
          · right
            refine ⟨ErrKind.network, ?_⟩
            rw [List.filter_append, onEvents_filter]
            rfl

/-- C6 counterexample: when the initial `fetch` promise rejects with a
network failure — a fatal error for the turn — `fetchSSEChat` propagates the
error without ever invoking the finalization callback: it fires zero times,
not exactly once. -/
theorem C6_counterexample :
    fetchTrace (fun _ => (none : Option Unit))
        ⟨some PreStream.rejectedNet, true, true, [], StreamEnd.normal⟩ =
      [CallEvt.raised ErrKind.network] ∧
    (fetchTrace (fun _ => (none : Option Unit))
        ⟨some PreStream.rejectedNet, true, true, [], StreamEnd.normal⟩).countP
      isOnDone = 0 :=
  ⟨rfl, rfl⟩

/-- C6 witness: a delivered frame followed by a mid-stream network failure
still fires the finalization callback exactly once, before the error. -/
theorem C6_witness :
    (fetchTrace (fun _ => (some 0 : Option Nat))
        ⟨none, true, true, ["event: stream\ndata: 1\n\n".toList],
          StreamEnd.netError⟩).countP isOnDone = 1 ∧
    ((fetchTrace (fun _ => (some 0 : Option Nat))
        ⟨none, true, true, ["event: stream\ndata: 1\n\n".toList],
          StreamEnd.netError⟩).filter isTerminalEvt = [CallEvt.callOnDone] ∨
      ∃ e, (fetchTrace (fun _ => (some 0 : Option Nat))
        ⟨none, true, true, ["event: stream\ndata: 1\n\n".toList],
          StreamEnd.netError⟩).filter isTerminalEvt =
        [CallEvt.callOnDone, CallEvt.raised e]) :=
  C6_theorem (fun _ => (some 0 : Option Nat))
    ⟨none, true, true, ["event: stream\ndata: 1\n\n".toList], StreamEnd.netError⟩
    rfl

/-- C7: chunk-boundary independence of the frame parser. Any chunked delivery
yields exactly the frame sequence of the single-chunk delivery of the whole
text, the emitted complete blocks are those of the whole text, and the final
partial block stays in the pending buffer. -/
theorem C7_theorem {J : Type} (dec : List Char → Option J)
    (chunks : List (List Char)) :
    framesOf dec chunks = framesOf dec [chunks.flatten] ∧
    (feedChunks initParse chunks).emitted = (splitNN chunks.flatten).1 ∧
    (feedChunks initParse chunks).buffer = (splitNN chunks.flatten).2 := by
  have h := feedChunks_init_join chunks
  have h1 : feedChunks initParse [chunks.flatten] =
      feedChunk initParse chunks.flatten := by
    simp [feedChunks]
  have h2 : feedChunk initParse chunks.flatten =
      ⟨(splitNN chunks.flatten).1, (splitNN chunks.flatten).2⟩ := by
    simp [feedChunk, initParse]
  refine ⟨?_, ?_, ?_⟩
  · unfold framesOf
    rw [h, h1]
  · rw [h, h2]
  · rw [h, h2]

/-- C8: the accumulated Answer is the byte-for-byte concatenation of the
`stream` frames' content fragments in arrival order, appended to whatever was
accumulated before; in particular the Answer never shrinks within a turn. -/
theorem C8_theorem (st : TaskState) (fs : List Frame) :
    (reconcileFrom st fs).accumulated = st.accumulated ++ concatContents fs ∧
    st.accumulated.length ≤ (reconcileFrom st fs).accumulated.length := by
  refine ⟨reconcileFrom_accumulated st fs, ?_⟩
  rw [reconcileFrom_accumulated, String.length_append]
  exact Nat.le_add_right _ _

/-- C9 (amended): within one block, the last `event:` line sets the frame
type and the last `data:` line is the one decoded (each matching line
overwrites the previous value), and a block lacking a type or decodable data
is skipped while the surrounding frames are still delivered. -/
theorem C9_theorem {J : Type} (dec : List Char → Option J) (block : List Char)
    (bs1 bs2 : List (List Char)) (b : List Char)
    (hb : blockFrame dec b = none) :
    (extractTypeData block).1 =
      (((splitNL block).filter (fun l => eventTag.isPrefixOf l)).getLast?).elim
        [] (fun l => l.drop 7) ∧
    (extractTypeData block).2 =
      (((splitNL block).filter (fun l => dataTag.isPrefixOf l)).getLast?).elim
        [] (fun l => l.drop 6) ∧
    blockFrames dec (bs1 ++ b :: bs2) = blockFrames dec (bs1 ++ bs2) := by
  refine ⟨?_, ?_, blockFrames_skip dec bs1 bs2 b hb⟩
  · show ((splitNL block).foldl stepLine ([], [])).1 = _
    rw [foldl_stepLine]
    exact lastTagged_getLast eventTag 7 (splitNL block) []
  · show ((splitNL block).foldl stepLine ([], [])).2 = _
    rw [foldl_stepLine]
    exact lastTagged_getLast dataTag 6 (splitNL block) []

/-- C9 counterexample: in a block with two `event:` lines and two `data:`
lines, the frame type is taken from the last `event:` line and the decoded
payload from the last `data:` line, not the first ones. -/
theorem C9_counterexample :
    (extractTypeData "event: a\nevent: b\ndata: 1\ndata: 2".toList).1 =
      "b".toList ∧
    (extractTypeData "event: a\nevent: b\ndata: 1\ndata: 2".toList).1 ≠
      "a".toList ∧
    (extractTypeData "event: a\nevent: b\ndata: 1\ndata: 2".toList).2 =
      "2".toList := by
  decide

/-- C9 witness: the amended statement at a concrete block, a concrete decoder
and a concrete undecodable block in the middle of a delivery. -/
theorem C9_witness :
    (extractTypeData "event: a\nevent: b\ndata: 1\ndata: 2".toList).1 =
      ((("event: a\nevent: b\ndata: 1\ndata: 2".toList |> splitNL).filter
        (fun l => eventTag.isPrefixOf l)).getLast?).elim [] (fun l => l.drop 7) ∧
    (extractTypeData "event: a\nevent: b\ndata: 1\ndata: 2".toList).2 =
      ((("event: a\nevent: b\ndata: 1\ndata: 2".toList |> splitNL).filter
        (fun l => dataTag.isPrefixOf l)).getLast?).elim [] (fun l => l.drop 6) ∧
    blockFrames (fun l => if l = "1".toList then some (1 : Nat) else none)
        (["event: x\ndata: 1".toList] ++ "oops".toList :: ["event: y\ndata: 1".toList]) =
      blockFrames (fun l => if l = "1".toList then some (1 : Nat) else none)
        (["event: x\ndata: 1".toList] ++ ["event: y\ndata: 1".toList]) :=
  C9_theorem (fun l => if l = "1".toList then some (1 : Nat) else none)
    "event: a\nevent: b\ndata: 1\ndata: 2".toList
    ["event: x\ndata: 1".toList] ["event: y\ndata: 1".toList] "oops".toList
    (by decide)

/-- C10: a `plan` frame replaces the Step table by exactly the incoming
entries in the incoming order; any previously present step whose id does not
occur in the plan is removed, whatever its status was. -/
theorem C10_theorem (st : TaskState) (entries : List PlanEntry)
    (thought : Option String) :
    ((applyFrame st (.plan entries thought)).taskSteps).map TaskStep.id =
      entries.map PlanEntry.id ∧
    (∀ s ∈ st.taskSteps, s.id ∉ entries.map PlanEntry.id →
      ∀ t ∈ (applyFrame st (.plan entries thought)).taskSteps, t.id ≠ s.id) := by
  have hmap : ((applyFrame st (.plan entries thought)).taskSteps).map TaskStep.id =
      entries.map PlanEntry.id := by
    simp only [taskSteps_applyFrame]
    rw [List.map_map]
    apply List.map_congr_left
    intro e _
    exact mergePlanEntry_id st.taskSteps e
  refine ⟨hmap, ?_⟩
  intro s _ hnot t ht heq
  apply hnot
  rw [← heq, ← hmap]
  exact List.mem_map_of_mem TaskStep.id ht

/-- C10 witness: a table holding a `done` step "old" is fully replaced by a
plan listing only "s1"; the merged entry for "s1" does not carry id "old". -/
theorem C10_witness :
    ((applyFrame
        { initTaskState with
          taskSteps := [⟨"old", "o", .done, some 1, none, none, none, none⟩] }
        (.plan [⟨"s1", "find", "pending", none, none⟩] none)).taskSteps).map
      TaskStep.id = ["s1"] ∧
    (⟨"s1", "find", .pending, none, none, none, none, none⟩ : TaskStep).id ≠
      "old" :=
  ⟨(C10_theorem
      { initTaskState with
        taskSteps := [⟨"old", "o", .done, some 1, none, none, none, none⟩] }
      [⟨"s1", "find", "pending", none, none⟩] none).1,
    (C10_theorem
      { initTaskState with
        taskSteps := [⟨"old", "o", .done, some 1, none, none, none, none⟩] }
      [⟨"s1", "find", "pending", none, none⟩] none).2
      ⟨"old", "o", .done, some 1, none, none, none, none⟩ (by decide) (by decide)
      ⟨"s1", "find", .pending, none, none, none, none, none⟩ (by decide)⟩

end ScholarAgent
